import Mathlib

/-!
# Verification model of `configuration.hpp` / `format_manager.hpp`

A shallow embedding of the `config_manager` C++ header-only library
(`config::Config`, `config::ConfigFactory`, and the JSON/YAML bridge of
`output_format`), with theorems settling the specification claims.

Modelling conventions:
* `nlohmann::json` values are the inductive `Json` (tag set
  null / boolean / integer / float / string / array / object).  nlohmann
  keeps object members sorted by key and compares objects order-insensitively;
  none of the operations modelled here can observe member order, so objects
  are carried as insertion-ordered association lists.
* `std::unordered_map<std::string, T>` is an association list `AL T`
  (`alLookup` finds the first match, `alInsert` overwrites in place or
  appends).  An `unordered_map` always has pairwise-distinct keys; theorems
  that need this state it as a `Nodup` hypothesis.
* Exceptions are explicit: a computation that can throw returns `Except CErr`
  (or an outcome type with a `thrown` constructor).  A `try { ... } catch`
  block at an operation boundary is modelled by pattern matching on the inner
  `Except` and turning the error into a `cerr` diagnostic string.
* The file system is an association list from path to `FileData`; writing
  always succeeds (an unopenable `ofstream` is not exercised by any claim),
  reading a missing path models `is_open() == false`.
* `std::mutex` is non-reentrant: operations that take `std::lock_guard` on the
  store's own mutex receive a `lockHeld` flag telling whether the calling
  context already holds that mutex; locking it again is the `deadlock`
  outcome (undefined behaviour / permanent block in C++).
* IEEE doubles are abstracted as exact rationals; their decimal rendering
  (`renderDouble`) stands in for the C++ stream formatting of `double`.
-/

/-! ## Association lists (model of `std::unordered_map<std::string, ·>`) -/

abbrev AL (α : Type) := List (String × α)

def alLookup {α : Type} (k : String) : AL α → Option α
  | [] => none
  | (k', v) :: t => if k' = k then some v else alLookup k t

def alInsert {α : Type} (k : String) (v : α) : AL α → AL α
  | [] => [(k, v)]
  | (k', v') :: t => if k' = k then (k, v) :: t else (k', v') :: alInsert k v t

/-- Model of `unordered_map::erase(key)`: `none` when the key was absent
(erase count 0), otherwise the map with the entry removed. -/
def alErase {α : Type} (k : String) : AL α → Option (AL α)
  | [] => none
  | (k', v') :: t =>
    if k' = k then some t
    else (alErase k t).map (fun t' => (k', v') :: t')

def alKeys {α : Type} (m : AL α) : List String := m.map Prod.fst

@[simp] theorem alLookup_nil {α : Type} (k : String) : alLookup (α := α) k [] = none := rfl

@[simp] theorem alLookup_cons {α : Type} (k k' : String) (v : α) (t : AL α) :
    alLookup k ((k', v) :: t) = if k' = k then some v else alLookup k t := rfl

theorem alLookup_insert_self {α : Type} (k : String) (v : α) (m : AL α) :
    alLookup k (alInsert k v m) = some v := by
  induction m with
  | nil => simp [alInsert]
  | cons p t ih =>
    obtain ⟨k', v'⟩ := p
    by_cases h : k' = k <;> simp [alInsert, h, ih]

theorem alLookup_insert_ne {α : Type} (k k₀ : String) (v : α) (m : AL α) (h : k₀ ≠ k) :
    alLookup k (alInsert k₀ v m) = alLookup k m := by
  induction m with
  | nil => simp [alInsert, h]
  | cons p t ih =>
    obtain ⟨k', v'⟩ := p
    by_cases h' : k' = k₀
    · subst h'
      simp [alInsert, h]
    · simp [alInsert, h']
      by_cases h'' : k' = k <;> simp [h'', ih]

theorem alLookup_insert {α : Type} (k k₀ : String) (v : α) (m : AL α) :
    alLookup k (alInsert k₀ v m) = if k₀ = k then some v else alLookup k m := by
  by_cases h : k₀ = k
  · subst h; simp [alLookup_insert_self]
  · simp [h, alLookup_insert_ne _ _ _ _ h]

theorem alInsert_of_lookup_none {α : Type} (k : String) (v : α) (m : AL α)
    (h : alLookup k m = none) : alInsert k v m = m ++ [(k, v)] := by
  induction m with
  | nil => simp [alInsert]
  | cons p t ih =>
    obtain ⟨k', v'⟩ := p
    by_cases h' : k' = k
    · simp [h'] at h
    · simp [alInsert, h']
      exact ih (by simpa [h'] using h)

theorem alLookup_append {α : Type} (k : String) (m₁ m₂ : AL α) :
    alLookup k (m₁ ++ m₂) = ((alLookup k m₁).or (alLookup k m₂)) := by
  induction m₁ with
  | nil => simp
  | cons p t ih =>
    obtain ⟨k', v'⟩ := p
    by_cases h : k' = k <;> simp [h, ih]

theorem alErase_eq_none {α : Type} (k : String) (m : AL α) :
    alErase k m = none ↔ alLookup k m = none := by
  induction m with
  | nil => simp [alErase]
  | cons p t ih =>
    obtain ⟨k', v'⟩ := p
    by_cases h : k' = k <;> simp [alErase, h, ih]

/-! ## The generic value model (`nlohmann::json`)

The tag set mirrors `nlohmann::json::value_t`: `null`, `boolean`,
`number_integer`/`number_unsigned` (collapsed into `int`; nlohmann stores
64-bit machine integers, modelled as unbounded `Int` since no modelled
operation overflows them), `number_float` (an IEEE double, abstracted as an
exact rational), `string`, `array`, `object`.  The nested `List` fields are
expressed as the mutual types `JsonList` / `JsonObj` so that every function
below is structurally recursive and kernel-reducible. -/

mutual
inductive Json where
  | null
  | bool (b : Bool)
  | int (n : Int)
  | float (q : Rat)
  | str (s : String)
  | arr (xs : JsonList)
  | obj (es : JsonObj)

inductive JsonList where
  | nil
  | cons (hd : Json) (tl : JsonList)

inductive JsonObj where
  | nil
  | cons (key : String) (val : Json) (tl : JsonObj)
end

def JsonObj.toList : JsonObj → List (String × Json)
  | .nil => []
  | .cons k v t => (k, v) :: t.toList

def JsonObj.ofList : List (String × Json) → JsonObj
  | [] => .nil
  | (k, v) :: t => .cons k v (JsonObj.ofList t)

@[simp] theorem jsonObj_toList_ofList (l : List (String × Json)) :
    (JsonObj.ofList l).toList = l := by
  induction l with
  | nil => rfl
  | cons p t ih => obtain ⟨k, v⟩ := p; simp [JsonObj.ofList, JsonObj.toList, ih]

/-- `nlohmann::json::is_string()`. -/
def Json.isString : Json → Bool
  | .str _ => true
  | _ => false

/-! ## YAML trees (`YAML::Node`)

A parsed YAML node is null, an (untyped, textual) scalar, a sequence or a
map.  The yaml-cpp emitter/parser pair is modelled as the identity on these
trees: the emitter quotes scalars as needed to preserve their text, and the
type information a scalar might suggest is only ever recovered through
`yaml_to_json`'s coercion chain, which is modelled explicitly below. -/

mutual
inductive Yaml where
  | null
  | scalar (s : String)
  | seq (xs : YamlList)
  | map (es : YamlMap)

inductive YamlList where
  | nil
  | cons (hd : Yaml) (tl : YamlList)

inductive YamlMap where
  | nil
  | cons (key : String) (val : Yaml) (tl : YamlMap)
end

def YamlMap.ofList : List (String × Yaml) → YamlMap
  | [] => .nil
  | (k, v) :: t => .cons k v (YamlMap.ofList t)

def YamlMap.toList : YamlMap → List (String × Yaml)
  | .nil => []
  | .cons k v t => (k, v) :: t.toList

@[simp] theorem yamlMap_toList_ofList (l : List (String × Yaml)) :
    (YamlMap.ofList l).toList = l := by
  induction l with
  | nil => rfl
  | cons p t ih => obtain ⟨k, v⟩ := p; simp [YamlMap.ofList, YamlMap.toList, ih]

/-- `YAML::Node::operator[](key)` read access, as used by
`load_partial_from_file`: defined (truthy) only on maps holding the key.
On scalars, nulls and sequences a string subscript yields an undefined
node, which is falsy. -/
def Yaml.getKey (y : Yaml) (k : String) : Option Yaml :=
  match y with
  | .map es => alLookup k es.toList
  | _ => none

/-! ## Scalar parsing (yaml-cpp `as<bool> / as<int> / as<double>`)

`output_format::yaml_to_json` recovers typed values from YAML scalars by
trying, in order, `node.as<bool>()`, `node.as<int>()`, `node.as<double>()`
and finally `node.as<std::string>()`.
* `convert<bool>::decode` accepts the YAML 1.1 boolean words
  y/yes/true/on and n/no/false/off in lower case, first-capital and
  upper case.
* The integer and floating conversions run a `std::stringstream` extraction
  with the base flags cleared (`unsetf(std::ios::dec)`), so integers accept
  decimal, `0x` hexadecimal and leading-`0` octal forms, reject partial
  consumption, and allow trailing whitespace; `int` is 32 bits, and overflow
  makes the extraction fail.  The `.inf`/`.nan` special spellings of the
  floating conversion are not modelled (no modelled value renders to them). -/

def isWsChar (c : Char) : Bool :=
  c = ' ' || c = '\t' || c = '\n' || c = '\r'

def allWs (cs : List Char) : Bool := cs.all isWsChar

def decDigit? (c : Char) : Option Nat :=
  if c.isDigit then some (c.toNat - 48) else none

def hexDigit? (c : Char) : Option Nat :=
  if c.isDigit then some (c.toNat - 48)
  else if 'a' ≤ c && c ≤ 'f' then some (c.toNat - 87)
  else if 'A' ≤ c && c ≤ 'F' then some (c.toNat - 55)
  else none

def octDigit? (c : Char) : Option Nat :=
  if '0' ≤ c && c ≤ '7' then some (c.toNat - 48) else none

/-- Greedily read digits; returns (value, digit count, rest). -/
def readDigits (digit? : Char → Option Nat) (base : Nat) :
    List Char → Nat → Nat → Nat × Nat × List Char
  | [], acc, n => (acc, n, [])
  | c :: t, acc, n =>
    match digit? c with
    | some d => readDigits digit? base t (acc * base + d) (n + 1)
    | none => (acc, n, c :: t)

def parseBoolScalar (s : String) : Option Bool :=
  if s ∈ ["y", "Y", "yes", "Yes", "YES", "true", "True", "TRUE", "on", "On", "ON"] then
    some true
  else if s ∈ ["n", "N", "no", "No", "NO", "false", "False", "FALSE", "off", "Off", "OFF"] then
    some false
  else none

def splitSign : List Char → Bool × List Char
  | '-' :: t => (true, t)
  | '+' :: t => (false, t)
  | cs => (false, cs)

def parseIntScalar (s : String) : Option Int :=
  let (neg, cs) := splitSign s.toList
  let magRest : Option Nat × List Char :=
    match cs with
    | '0' :: 'x' :: t =>
      let (v, n, r) := readDigits hexDigit? 16 t 0 0
      (if n = 0 then none else some v, r)
    | '0' :: 'X' :: t =>
      let (v, n, r) := readDigits hexDigit? 16 t 0 0
      (if n = 0 then none else some v, r)
    | '0' :: t =>
      let (v, _, r) := readDigits octDigit? 8 t 0 0
      (some v, r)
    | _ =>
      let (v, n, r) := readDigits decDigit? 10 cs 0 0
      (if n = 0 then none else some v, r)
  match magRest with
  | (none, _) => none
  | (some m, rest) =>
    if allWs rest then
      let v : Int := if neg then -(m : Int) else (m : Int)
      if -(2 ^ 31) ≤ v ∧ v ≤ 2 ^ 31 - 1 then some v else none
    else none

def pow10 (n : Nat) : Rat := ((10 ^ n : Nat) : Rat)

def parseDoubleScalar (s : String) : Option Rat :=
  let (neg, cs) := splitSign s.toList
  let (ip, ni, r₁) := readDigits decDigit? 10 cs 0 0
  let fracRest : Nat × Nat × List Char :=
    match r₁ with
    | '.' :: t => readDigits decDigit? 10 t 0 0
    | _ => (0, 0, r₁)
  let (fp, nf, r₂) := fracRest
  if ni + nf = 0 then none
  else
    let mant : Rat := (ip : Rat) + (fp : Rat) / pow10 nf
    let expRest : Option (Bool × Nat × List Char) :=
      match r₂ with
      | 'e' :: t =>
        let (eneg, t') := splitSign t
        let (ev, en, r₃) := readDigits decDigit? 10 t' 0 0
        if en = 0 then none else some (eneg, ev, r₃)
      | 'E' :: t =>
        let (eneg, t') := splitSign t
        let (ev, en, r₃) := readDigits decDigit? 10 t' 0 0
        if en = 0 then none else some (eneg, ev, r₃)
      | _ => some (false, 0, r₂)
    match expRest with
    | none => none
    | some (eneg, e, rest) =>
      if allWs rest then
        let signed := if neg then -mant else mant
        some (if eneg then signed / pow10 e else signed * pow10 e)
      else none

/-! ## Integer / double rendering used by the bridge -/

/-- `j.get<int>()` / `j.get<unsigned>()` in `json_to_yaml` truncate the stored
64-bit value to 32 bits before it is rendered; non-negative values are
modelled through the `number_unsigned` path and negative values through the
`number_integer` path. -/
def cppIntScalar (i : Int) : String :=
  if 0 ≤ i then toString (i.emod (2 ^ 32))
  else toString ((i + 2 ^ 31).emod (2 ^ 32) - 2 ^ 31)

/-- Exact decimal digits of `num/den` (stops at `fuel` digits; the doubles
this stands in for are dyadic rationals whose expansions terminate well
inside the fuel bound). -/
def decimalFracDigits (den : Nat) : Nat → Nat → List Char
  | _, 0 => []
  | num, fuel + 1 =>
    if num = 0 then []
    else
      let d := num * 10 / den
      Char.ofNat (48 + d) :: decimalFracDigits den (num * 10 % den) fuel

/-- Decimal rendering of a double, standing in for the C++ stream formatting
used by both the yaml-cpp emitter and `nlohmann::json::dump`. -/
def renderDouble (q : Rat) : String :=
  if q.den = 1 then toString q.num
  else
    let sgn := if q.num < 0 then "-" else ""
    let na := q.num.natAbs
    sgn ++ toString (na / q.den) ++ "." ++
      String.mk (decimalFracDigits q.den (na % q.den) 1100)

/-- JSON string escaping as used by `nlohmann::json::dump` (quote and
backslash; control-character escaping is abstracted, no modelled message
contains control characters). -/
def jsonEscape (s : String) : String :=
  String.mk (s.toList.foldr (fun c acc =>
    if c = '"' then '\\' :: '"' :: acc
    else if c = '\\' then '\\' :: '\\' :: acc
    else c :: acc) [])

/-! `nlohmann::json::dump()` (compact form, as used in the message of a
`validate` predicate failure). -/

mutual
def Json.dump : Json → String
  | .null => "null"
  | .bool b => if b then "true" else "false"
  | .int i => toString i
  | .float q => renderDouble q
  | .str s => "\"" ++ jsonEscape s ++ "\""
  | .arr xs => "[" ++ JsonList.dumpElems xs ++ "]"
  | .obj es => "\x7b" ++ JsonObj.dumpMembers es ++ "\x7d"

def JsonList.dumpElems : JsonList → String
  | .nil => ""
  | .cons h .nil => Json.dump h
  | .cons h (.cons h' t) => Json.dump h ++ "," ++ JsonList.dumpElems (.cons h' t)

def JsonObj.dumpMembers : JsonObj → String
  | .nil => ""
  | .cons k v .nil => "\"" ++ jsonEscape k ++ "\":" ++ Json.dump v
  | .cons k v (.cons k' v' t) =>
    "\"" ++ jsonEscape k ++ "\":" ++ Json.dump v ++ "," ++ JsonObj.dumpMembers (.cons k' v' t)
end

/-! ## The format bridge (`output_format::json_to_yaml` / `yaml_to_json`) -/

/-! `output_format::json_to_yaml`.  Note the faithful quirk: the `YAML::Node`
accumulator starts out null, so an empty array or empty object converts to a
null node (the `for` loop never runs and nothing is assigned). -/

mutual
def json_to_yaml : Json → Yaml
  | .null => .null
  | .bool b => .scalar (if b then "true" else "false")
  | .int i => .scalar (cppIntScalar i)
  | .float q => .scalar (renderDouble q)
  | .str s => .scalar s
  | .arr .nil => .null
  | .arr (.cons h t) => .seq (.cons (json_to_yaml h) (jsonListToYamlList t))
  | .obj .nil => .null
  | .obj (.cons k v t) => .map (.cons k (json_to_yaml v) (jsonObjToYamlMap t))

def jsonListToYamlList : JsonList → YamlList
  | .nil => .nil
  | .cons h t => .cons (json_to_yaml h) (jsonListToYamlList t)

def jsonObjToYamlMap : JsonObj → YamlMap
  | .nil => .nil
  | .cons k v t => .cons k (json_to_yaml v) (jsonObjToYamlMap t)
end

/-- The scalar branch of `yaml_to_json`: try `as<bool>`, `as<int>`,
`as<double>` in order and fall back to the raw string. -/
def scalarCoerce (s : String) : Json :=
  match parseBoolScalar s with
  | some b => .bool b
  | none =>
    match parseIntScalar s with
    | some i => .int i
    | none =>
      match parseDoubleScalar s with
      | some q => .float q
      | none => .str s

/-! `output_format::yaml_to_json`.  Map entries are assigned one by one via
`j[key] = ...`, so a duplicate key in the YAML map overwrites the earlier
entry. -/

mutual
def yaml_to_json : Yaml → Json
  | .null => .null
  | .scalar s => scalarCoerce s
  | .seq xs => .arr (yamlListToJsonList xs)
  | .map es =>
    .obj (JsonObj.ofList ((yamlMapEntries es).foldl (fun m kv => alInsert kv.1 kv.2 m) []))

def yamlListToJsonList : YamlList → JsonList
  | .nil => .nil
  | .cons h t => .cons (yaml_to_json h) (yamlListToJsonList t)

def yamlMapEntries : YamlMap → List (String × Json)
  | .nil => []
  | .cons k v t => (k, yaml_to_json v) :: yamlMapEntries t
end

/-- One full pass of a value through the YAML representation:
emit with `json_to_yaml`, read back with `yaml_to_json`.  This is the
normalisation the YAML save/load pipeline applies to every stored value. -/
def yamlNormalize (v : Json) : Json := yaml_to_json (json_to_yaml v)

example : yamlNormalize (.int 42) = .int 42 := rfl
example : yamlNormalize (.str "true") = .bool true := rfl
example : yamlNormalize (.str "hello") = .str "hello" := rfl
example : yamlNormalize (.bool false) = .bool false := rfl
example : scalarCoerce "1.0.0" = .str "1.0.0" := rfl
example : scalarCoerce "0x10" = .int 16 := rfl
example : ∃ q : Rat, scalarCoerce "2.5" = .float q := ⟨_, rfl⟩

/-! ## Errors, diagnostics and operation outcomes -/

/-- The C++ exception types thrown by the library. -/
inductive CErr where
  | invalidArgument (msg : String)
  | runtimeError (msg : String)
deriving DecidableEq

def CErr.what : CErr → String
  | .invalidArgument m => m
  | .runtimeError m => m

/-- `throw std::invalid_argument("Unknown configuration key: " + key)`. -/
def keyNotFound (key : String) : CErr :=
  .invalidArgument ("Unknown configuration key: " ++ key)

/-- Outcome of a public operation whose body is wrapped in
`try { ... } catch (const std::exception &e) { std::cerr << ...; }`:
`ok` is a normal return carrying the lines printed to the diagnostic channel
(`cerr`); `thrown` would be an exception escaping to the caller. -/
inductive OpOut (α : Type) where
  | ok (a : α) (diags : List String)
  | thrown (e : CErr) (diags : List String)

/-! ## The `config::Config` store -/

/-- Model of `std::unordered_map<std::string, nlohmann::json> config_map`. -/
abbrev Cmap := AL Json

/-- The mutable state of one `config::Config` instance.  Change listeners are
`std::function` callbacks; the model identifies each registered callback by an
abstract tag (`Nat`) and records invocations as explicit notification
events. -/
structure Config where
  config_map : Cmap
  change_listeners_ : List Nat
  version_ : String
  env_overrides_ : AL String

/-- A default-constructed `Config()`. -/
def Config.mk0 : Config :=
  { config_map := [], change_listeners_ := [], version_ := "", env_overrides_ := [] }

/-- A listener invocation: (listener tag, key, value). -/
abbrev Notif := Nat × String × Json

/-- `Config::get`: returns the mapped value, or throws
`std::invalid_argument` (the `KeyNotFound` kind) to the caller — this
operation has no internal `catch`. -/
def Config.get (key : String) (c : Config) : Except CErr Json :=
  match alLookup key c.config_map with
  | some v => .ok v
  | none => .error (keyNotFound key)

/-- Result of `Config::set`.  `deadlock`: the function starts with
`std::lock_guard` on the store's own non-reentrant mutex, so a caller that
already holds that mutex blocks forever. -/
inductive SetResult where
  | ok (c : Config) (notifs : List Notif)
  | thrown (e : CErr) (c : Config)
  | deadlock

/-- `Config::set`: rejects the empty key; rejects a non-string value for the
reserved key `"example"`; otherwise stores the value and invokes every
registered listener with `(key, value)` in registration order, all under the
same lock acquisition.  `lockHeld` says whether the calling context already
holds this store's mutex. -/
def Config.set (lockHeld : Bool) (key : String) (value : Json) (c : Config) : SetResult :=
  if lockHeld then .deadlock
  else if key ≠ "" then
    if key = "example" ∧ value.isString = false then
      .thrown (.invalidArgument "Value for 'example' must be a string") c
    else
      .ok { c with config_map := alInsert key value c.config_map }
        (c.change_listeners_.map (fun l => (l, key, value)))
  else .thrown (.invalidArgument "Key cannot be empty") c

/-- `Config::get_all`: a snapshot copy of the map. -/
def Config.get_all (c : Config) : Cmap := c.config_map

/-- Inner loop of `Config::validate`: walk the validator entries in iteration
order; a missing key or a failed predicate throws `std::invalid_argument`
with the key (and, for a predicate failure, the offending value). -/
def validateLoop (m : Cmap) : List (String × (Json → Bool)) → Except CErr Unit
  | [] => .ok ()
  | (key, pred) :: t =>
    match alLookup key m with
    | some v =>
      if pred v then validateLoop m t
      else .error (.invalidArgument
        ("Validation failed for key: " ++ key ++ " with value: " ++ Json.dump v))
    | none => .error (.invalidArgument ("Validation failed: key not found: " ++ key))

/-- `Config::validate`: the whole loop sits inside `try { ... } catch` whose
handler prints to `cerr`, so the operation always returns normally; the first
violation is only reported on the diagnostic channel.  The C++ `validators`
argument is an `unordered_map`; the list order here is its iteration
order. -/
def Config.validate (validators : List (String × (Json → Bool))) (c : Config) : OpOut Unit :=
  match validateLoop c.config_map validators with
  | .ok () => .ok () []
  | .error e => .ok () ["Error in validate: " ++ e.what]

/-- `Config::remove`: `config_map.erase(key)`; an erase count of 0 throws the
`KeyNotFound` kind, but the throw happens inside this function's own
`try { ... } catch`, which prints to `cerr` — so the error never reaches the
caller and the operation returns normally either way. -/
def Config.remove (key : String) (c : Config) : OpOut Config :=
  match alErase key c.config_map with
  | some m => .ok { c with config_map := m } []
  | none => .ok c ["Error in remove: " ++ (keyNotFound key).what]

/-- `Config::exists`. -/
def Config.existsKey (key : String) (c : Config) : Bool :=
  (alLookup key c.config_map).isSome

/-- `Config::clear`: empties the map only; listeners, version and recorded
environment overrides are kept. -/
def Config.clear (c : Config) : Config :=
  { c with config_map := [] }

/-- `Config::add_change_listener`: appends to the listener list. -/
def Config.add_change_listener (l : Nat) (c : Config) : Config :=
  { c with change_listeners_ := c.change_listeners_ ++ [l] }

/-- Outcome of `Config::update_multiple`. -/
inductive UMResult where
  | ok (c : Config) (notifs : List Notif) (diags : List String)
  | deadlock

/-- The iteration inside `Config::update_multiple`: each pair is applied with
`set(key, value)` while `update_multiple` itself already holds the store's
mutex, so the nested `set` re-locks a held non-reentrant `std::mutex`.  A
`set` exception would be caught at the boundary and printed; the deadlock is
not an exception and cannot be caught. -/
def updateLoop : List (String × Json) → Config → List Notif → UMResult
  | [], c, acc => .ok c acc []
  | (key, value) :: t, c, acc =>
    match Config.set true key value c with
    | .deadlock => .deadlock
    | .thrown e c' => .ok c' acc ["Error in update_multiple: " ++ e.what]
    | .ok c' ns => updateLoop t c' (acc ++ ns)

/-- `Config::update_multiple`: takes `std::lock_guard` on the store's mutex
and then calls `set` for every pair of the input map. -/
def Config.update_multiple (new_cfg : List (String × Json)) (c : Config) : UMResult :=
  updateLoop new_cfg c []

/-! ## Environment importer (`Config::load_from_env`) -/

/-- Split one raw `environ` entry at its first `'='`
(`env_entry.find('=')` / `substr`); entries without `'='` are skipped
by the importing loop. -/
def splitAtEq : List Char → Option (List Char × List Char)
  | [] => none
  | c :: t =>
    if c = '=' then some ([], t)
    else (splitAtEq t).map (fun p => (c :: p.1, p.2))

def splitEnvEntry (e : String) : Option (String × String) :=
  (splitAtEq e.toList).map (fun p => (String.mk p.1, String.mk p.2))

/-- `std::getenv(key)`: the value of the first `environ` entry whose name is
`key`. -/
def getenvM (env : List String) (key : String) : Option String :=
  env.findSome? (fun e =>
    match splitEnvEntry e with
    | some (n, v) => if n = key then some v else none
    | none => none)

/-- The names defined by an environment (first components of the
well-formed `NAME=VALUE` entries). -/
def envNames (env : List String) : List String :=
  env.filterMap (fun e => (splitEnvEntry e).map Prod.fst)

/-- Phase 1 of `load_from_env` on the map: for every key already present, if
`getenv` finds a same-named variable, overwrite the value with the
environment string. -/
def envOverrideMap (env : List String) (m : Cmap) : Cmap :=
  m.map (fun kv =>
    match getenvM env kv.1 with
    | some ev => (kv.1, Json.str ev)
    | none => kv)

/-- Phase 1 of `load_from_env` on `env_overrides_`:
`env_overrides_[key] = env_val` for every overridden key. -/
def envOverrideRecord (env : List String) (m : Cmap) (ov : AL String) : AL String :=
  m.foldl (fun acc kv =>
    match getenvM env kv.1 with
    | some ev => alInsert kv.1 ev acc
    | none => acc) ov

/-- Phase 2 of `load_from_env`, one `environ` entry:
`config_map[name] = value` for a `NAME=VALUE` entry, skip otherwise. -/
def envImportStep (m : Cmap) (e : String) : Cmap :=
  match splitEnvEntry e with
  | some (n, v) => alInsert n (Json.str v) m
  | none => m

/-- `Config::load_from_env` under the store lock, two phases:
1. override pass — for every key already in `config_map`, if `getenv` finds a
   same-named variable, overwrite the value with the environment string and
   record it in `env_overrides_`;
2. import pass — walk `environ` and assign `config_map[name] = value`
   (as a JSON string) for every `NAME=VALUE` entry.
The surrounding `try`/`catch` never fires (no modelled step throws). -/
def Config.load_from_env (env : List String) (c : Config) : Config :=
  { c with
      config_map := env.foldl envImportStep (envOverrideMap env c.config_map),
      env_overrides_ := envOverrideRecord env c.config_map c.env_overrides_ }

/-! ## Files and format dispatch -/

/-- What a file on disk holds, at the granularity the pipeline observes: a
well-formed JSON document (carrying its value tree), a well-formed YAML
document (carrying its node tree), an empty file (left behind when a save
opens-and-truncates and then rejects the extension), or bytes that no
modelled parser accepts. -/
inductive FileData where
  | jsonDoc (j : Json)
  | yamlDoc (y : Yaml)
  | emptyFile
  | malformed

/-- The file system: path → contents.  Opening a missing path for reading
fails (`is_open() == false`); writing always succeeds. -/
abbrev FS := AL FileData

/-- `file_path.substr(file_path.find_last_of(".") + 1)`: the characters after
the last dot.  When the path has no dot, `find_last_of` returns `npos` and
`npos + 1` wraps to `0`, so the "extension" is the whole path — faithfully
reproduced by taking the longest dot-free suffix. -/
def extOf (path : String) : String :=
  String.mk ((path.toList.reverse.takeWhile (fun c => c ≠ '.')).reverse)

/-- `operator>>(ifstream, nlohmann::json)`:  succeeds exactly on a JSON
document.  A YAML document is in general not valid JSON and an empty stream
is a parse error. -/
def parseJsonFile : FileData → Option Json
  | .jsonDoc j => some j
  | _ => none

/-! Rendering of a JSON document as the YAML tree `YAML::Load` would produce
from its text (JSON is valid YAML; every scalar keeps its textual form,
without the 32-bit truncation of `json_to_yaml`, because the file holds the
full printed digits). -/

mutual
def yamlViewOfJson : Json → Yaml
  | .null => .null
  | .bool b => .scalar (if b then "true" else "false")
  | .int i => .scalar (toString i)
  | .float q => .scalar (renderDouble q)
  | .str s => .scalar s
  | .arr xs => .seq (yamlViewOfJsonList xs)
  | .obj es => .map (yamlViewOfJsonObj es)

def yamlViewOfJsonList : JsonList → YamlList
  | .nil => .nil
  | .cons h t => .cons (yamlViewOfJson h) (yamlViewOfJsonList t)

def yamlViewOfJsonObj : JsonObj → YamlMap
  | .nil => .nil
  | .cons k v t => .cons k (yamlViewOfJson v) (yamlViewOfJsonObj t)
end

/-- `YAML::Load(stream)`: succeeds on YAML documents, on JSON documents
(YAML superset), and on an empty stream (null document). -/
def parseYamlFile : FileData → Option Yaml
  | .yamlDoc y => some y
  | .jsonDoc j => some (yamlViewOfJson j)
  | .emptyFile => some .null
  | .malformed => none

/-- The key/value entries the full-load merge loop
`for (auto it = j.begin(); it != j.end(); ++it) config_map[it.key()] = it.value()`
walks: an object yields its members; null and an empty array are empty
ranges (the loop body never runs); a non-empty array or a primitive has a
non-empty iterator range on which `it.key()` throws before any assignment. -/
def jsonIterEntries : Json → Option (List (String × Json))
  | .obj es => some es.toList
  | .arr .nil => some []
  | .null => some []
  | .arr (.cons _ _) => none
  | .bool _ => none
  | .int _ => none
  | .float _ => none
  | .str _ => none

/-- Likewise for the YAML merge loop
(`it->first.as<std::string>()`): a map yields its entries; null, a scalar
and an empty sequence are empty iterator ranges; on a non-empty sequence
`it->first` is an undefined node and `as<std::string>` throws. -/
def yamlIterEntries : Yaml → Option (List (String × Yaml))
  | .map es => some es.toList
  | .seq .nil => some []
  | .null => some []
  | .scalar _ => some []
  | .seq (.cons _ _) => none

/-! ## Persistence pipeline -/

/-- `Config::load_from_file(file_path, version)`: open; dispatch on the
extension; merge every parsed entry into `config_map` (YAML values pass
through `yaml_to_json`); record the version.  Every failure is reported on
`cerr` and leaves the store untouched; nothing escapes to the caller. -/
def Config.load_from_file2 (file_path version : String) (fs : FS) (c : Config) :
    Config × List String :=
  match alLookup file_path fs with
  | none => (c, ["Failed to open config file for reading: " ++ file_path])
  | some fd =>
    let ext := extOf file_path
    if ext = "json" then
      match parseJsonFile fd with
      | none => (c, ["Error while loading config file: json parse error"])
      | some j =>
        match jsonIterEntries j with
        | none => (c, ["Error while loading config file: cannot use key() for non-object iterators"])
        | some es =>
          ({ c with
              config_map := es.foldl (fun m kv => alInsert kv.1 kv.2 m) c.config_map,
              version_ := version }, [])
    else if ext = "yaml" ∨ ext = "yml" then
      match parseYamlFile fd with
      | none => (c, ["Error while loading config file: yaml parse error"])
      | some y =>
        match yamlIterEntries y with
        | none => (c, ["Error while loading config file: bad conversion"])
        | some es =>
          ({ c with
              config_map :=
                es.foldl (fun m kv => alInsert kv.1 (yaml_to_json kv.2) m) c.config_map,
              version_ := version }, [])
    else (c, ["Error while loading config file: Unsupported config file format: " ++ ext])

/-- `Config::load_from_file(file_path)`: delegates to the versioned overload
with version `"1.0.0"`; its own `try`/`catch` is unreachable because the
versioned overload already reports every failure internally. -/
def Config.load_from_file1 (file_path : String) (fs : FS) (c : Config) :
    Config × List String :=
  Config.load_from_file2 file_path "1.0.0" fs c

/-- `Config::save_to_file(file_path, version)`: serialize the full map plus
an injected `"version"` member.  JSON: `json j(config_map); j["version"] =
version`.  YAML: emit `version` first, then every map entry through
`json_to_yaml`.  An unsupported extension still truncates the opened file
before the throw is caught and reported. -/
def Config.save_to_file2 (file_path version : String) (fs : FS) (c : Config) :
    FS × List String :=
  let ext := extOf file_path
  if ext = "json" then
    (alInsert file_path
      (.jsonDoc (.obj (JsonObj.ofList (alInsert "version" (Json.str version) c.config_map))))
      fs, [])
  else if ext = "yaml" ∨ ext = "yml" then
    (alInsert file_path
      (.yamlDoc (.map (YamlMap.ofList
        (("version", Yaml.scalar version) ::
          c.config_map.map (fun kv => (kv.1, json_to_yaml kv.2))))))
      fs, [])
  else
    (alInsert file_path .emptyFile fs,
      ["Error while saving config file: Unsupported config file format: " ++ ext])

/-- `Config::save_to_file(file_path)`: versioned overload with `"1.0.0"`. -/
def Config.save_to_file1 (file_path : String) (fs : FS) (c : Config) : FS × List String :=
  Config.save_to_file2 file_path "1.0.0" fs c

/-- `nlohmann::json::contains(key)` followed by `operator[]`, as used by the
partial JSON load (`contains` is `false` on every non-object). -/
def Json.getKey (j : Json) (k : String) : Option Json :=
  match j with
  | .obj es => alLookup k es.toList
  | _ => none

/-- `Config::load_partial_from_file(file_path, keys)`: open; dispatch; for
each requested key present in the document, assign it into `config_map`
(YAML values through `yaml_to_json`).  Does not touch the version.  All
failures are reported on `cerr`; nothing escapes. -/
def Config.load_partial_from_file (file_path : String) (keys : List String) (fs : FS)
    (c : Config) : Config × List String :=
  match alLookup file_path fs with
  | none => (c, ["Failed to open config file for reading: " ++ file_path])
  | some fd =>
    let ext := extOf file_path
    if ext = "json" then
      match parseJsonFile fd with
      | none => (c, ["Error while loading config file: json parse error"])
      | some j =>
        ({ c with
            config_map := keys.foldl (fun m k =>
              match j.getKey k with
              | some v => alInsert k v m
              | none => m) c.config_map }, [])
    else if ext = "yaml" ∨ ext = "yml" then
      match parseYamlFile fd with
      | none => (c, ["Error while loading config file: yaml parse error"])
      | some y =>
        ({ c with
            config_map := keys.foldl (fun m k =>
              match y.getKey k with
              | some v => alInsert k (yaml_to_json v) m
              | none => m) c.config_map }, [])
    else (c, ["Error while loading config file: Unsupported config file format: " ++ ext])

/-- `Config::save_partial_to_file(file_path, keys)`.  JSON: `j[key] = value`
for each requested key found in the map — when none matches, `j` stays null
and the file receives the literal `null` document.  YAML: the emitter
appends a `Key/Value` pair per matching requested key (duplicates in `keys`
are emitted twice).  No version member is written.  An unsupported extension
truncates the file, then reports. -/
def Config.save_partial_to_file (file_path : String) (keys : List String) (fs : FS)
    (c : Config) : FS × List String :=
  let ext := extOf file_path
  if ext = "json" then
    let entries : AL Json := keys.foldl (fun acc k =>
      match alLookup k c.config_map with
      | some v => alInsert k v acc
      | none => acc) []
    let doc : Json := if entries.isEmpty then .null else .obj (JsonObj.ofList entries)
    (alInsert file_path (.jsonDoc doc) fs, [])
  else if ext = "yaml" ∨ ext = "yml" then
    let entries : List (String × Yaml) := keys.filterMap (fun k =>
      (alLookup k c.config_map).map (fun v => (k, json_to_yaml v)))
    (alInsert file_path (.yamlDoc (.map (YamlMap.ofList entries))) fs, [])
  else
    (alInsert file_path .emptyFile fs,
      ["Error while saving config file: Unsupported config file format: " ++ ext])

/-! ## Instance registry and factory (`Config::instance`, `ConfigFactory`) -/

/-- The process-wide `static unordered_map<string, unique_ptr<Config>>` of
`Config::instance`. -/
abbrev Registry := AL Config

/-- `Config::instance(name)`: create-if-absent, then return the named store
(together with the updated registry). -/
def instanceReg (name : String) (reg : Registry) : Config × Registry :=
  match alLookup name reg with
  | some c => (c, reg)
  | none => (Config.mk0, alInsert name Config.mk0 reg)

/-- `ConfigFactory::create_new_config_from_existing(name, filePath)`: obtain
the named instance, call `load_from_file(filePath)` on it, and return the
handle.  The `catch` block that would return a null handle is dead code:
`Config::load_from_file` reports every failure internally and never throws,
so the factory always returns a (non-null) handle.  Result: the handle
(`none` would model the null `shared_ptr`), the updated registry, and the
diagnostics printed during the load. -/
def create_new_config_from_existing (name filePath : String) (fs : FS) (reg : Registry) :
    Option Config × Registry × List String :=
  let (c, reg') := instanceReg name reg
  let (c', diags) := Config.load_from_file1 filePath fs c
  (some c', alInsert name c' reg', diags)

/-! ## General lemmas about the model -/

@[simp] theorem alKeys_nil {α : Type} : alKeys ([] : AL α) = [] := rfl

@[simp] theorem alKeys_cons {α : Type} (k : String) (v : α) (t : AL α) :
    alKeys ((k, v) :: t) = k :: alKeys t := rfl

theorem alLookup_eq_none_iff {α : Type} (k : String) (m : AL α) :
    alLookup k m = none ↔ k ∉ alKeys m := by
  induction m with
  | nil => simp
  | cons p t ih =>
    obtain ⟨k', v'⟩ := p
    by_cases h : k' = k
    · subst h
      simp
    · have hne : k ≠ k' := fun hh => h hh.symm
      simp [h, ih, List.mem_cons, hne]

theorem alKeys_insert_mem {α : Type} (k k₀ : String) (v : α) (m : AL α)
    (h : k ∈ alKeys (alInsert k₀ v m)) : k = k₀ ∨ k ∈ alKeys m := by
  induction m with
  | nil =>
    left
    simpa [alInsert] using h
  | cons p t ih =>
    obtain ⟨k', v'⟩ := p
    by_cases h' : k' = k₀
    · subst h'
      simp only [alInsert, if_pos rfl, alKeys_cons] at h
      rcases List.mem_cons.mp h with h | h
      · exact Or.inl h
      · exact Or.inr (List.mem_cons_of_mem _ h)
    · simp only [alInsert, if_neg h', alKeys_cons] at h
      rcases List.mem_cons.mp h with h | h
      · exact Or.inr (by simp [h])
      · rcases ih h with h'' | h''
        · exact Or.inl h''
        · exact Or.inr (List.mem_cons_of_mem _ h'')

/-- Folding `alInsert` over entries whose keys are fresh for the accumulator
and pairwise distinct just appends the entries. -/
theorem foldl_insert_fresh {α : Type} (L : AL α) (m : AL α)
    (hfresh : ∀ p ∈ L, alLookup p.1 m = none)
    (hnd : (L.map Prod.fst).Nodup) :
    L.foldl (fun acc kv => alInsert kv.1 kv.2 acc) m = m ++ L := by
  induction L generalizing m with
  | nil => simp
  | cons p t ih =>
    obtain ⟨k, v⟩ := p
    simp only [List.foldl_cons]
    have hk : alLookup k m = none := hfresh (k, v) (by simp)
    rw [alInsert_of_lookup_none _ _ _ hk]
    simp only [List.map_cons, List.nodup_cons] at hnd
    rw [ih (m ++ [(k, v)])]
    · simp
    · intro p hp
      rw [alLookup_append]
      have h₁ : alLookup p.1 m = none := hfresh p (by simp [hp])
      have h₂ : alLookup p.1 [(k, v)] = none := by
        have : p.1 ≠ k := by
          intro h
          exact hnd.1 (h ▸ (List.mem_map.mpr ⟨p, hp, rfl⟩))
        simp [this.symm]
      simp [h₁, h₂]
    · exact hnd.2

/-- Folding an insert-with-conversion is folding a plain insert over the
converted entries. -/
theorem foldl_insert_conv {α β : Type} (g : α → β) (L : AL α) (m : AL β) :
    L.foldl (fun acc kv => alInsert kv.1 (g kv.2) acc) m =
      (L.map (fun kv => (kv.1, g kv.2))).foldl (fun acc kv => alInsert kv.1 kv.2 acc) m := by
  induction L generalizing m with
  | nil => rfl
  | cons p t ih => simp [ih]

/-- Prepending a fresh entry and appending it look the same to `alLookup`. -/
theorem alLookup_cons_eq_append {α : Type} (k : String) (v : α) (m : AL α)
    (h : alLookup k m = none) :
    ∀ k', alLookup k' ((k, v) :: m) = alLookup k' (m ++ [(k, v)]) := by
  intro k'
  rw [alLookup_append]
  by_cases hk : k = k'
  · subst hk
    simp [h]
  · simp only [alLookup_cons, if_neg hk]
    cases hm : alLookup k' m <;> simp [hk]

/-! ## Claim C3 -/

/-- C3 counterexample: on the absent key `"absent"` of an empty store,
`exists` is `false` and `get` does fail to the caller with the `KeyNotFound`
kind, but — contrary to the claim — `remove` returns normally: its
`KeyNotFound` throw is caught inside `Config::remove` itself, so no error of
any kind is surfaced to the caller. -/
theorem missing_key_remove_counterexample :
    Config.existsKey "absent" Config.mk0 = false
    ∧ Config.get "absent" Config.mk0 = .error (keyNotFound "absent")
    ∧ Config.remove "absent" Config.mk0 =
        .ok Config.mk0 ["Error in remove: Unknown configuration key: absent"]
    ∧ ¬ ∃ e d, Config.remove "absent" Config.mk0 = OpOut.thrown e d := by
  refine ⟨rfl, rfl, rfl, ?_⟩
  rintro ⟨e, d, h⟩
  exact nomatch h

/-- C3 (amended): for every key absent from the store, `exists` returns
`false` and `get` fails to the caller with the `KeyNotFound` kind; `remove`
detects the same `KeyNotFound` error but catches it internally, reports it on
the diagnostic channel and returns normally with the store unchanged. -/
theorem missing_key_amended (c : Config) (key : String)
    (h : alLookup key c.config_map = none) :
    Config.existsKey key c = false
    ∧ Config.get key c = .error (keyNotFound key)
    ∧ Config.remove key c = .ok c ["Error in remove: " ++ (keyNotFound key).what] := by
  refine ⟨?_, ?_, ?_⟩
  · simp [Config.existsKey, h]
  · simp [Config.get, h]
  · simp [Config.remove, (alErase_eq_none key c.config_map).mpr h]

/-- Witness for `missing_key_amended` at the store `{"x": 1}` and key
`"absent"`. -/
theorem missing_key_amended_witness :
    alLookup "absent" ([("x", Json.int 1)] : Cmap) = none
    ∧ (Config.existsKey "absent" { Config.mk0 with config_map := [("x", Json.int 1)] } = false
      ∧ Config.get "absent" { Config.mk0 with config_map := [("x", Json.int 1)] } =
          .error (keyNotFound "absent")
      ∧ Config.remove "absent" { Config.mk0 with config_map := [("x", Json.int 1)] } =
          .ok { Config.mk0 with config_map := [("x", Json.int 1)] }
            ["Error in remove: " ++ (keyNotFound "absent").what]) :=
  ⟨rfl, missing_key_amended { Config.mk0 with config_map := [("x", Json.int 1)] } "absent" rfl⟩

/-! ## Claim C10 -/

/-- C10: `update_multiple` takes the store's `std::lock_guard` and then calls
`set`, which immediately re-locks the same non-reentrant mutex — so for every
non-empty input the very first `set` deadlocks; no pair is ever applied, no
listener fires and the caller never regains control.  (This contradicts both
the claim and the header's own usage example, which expects the pairs to be
applied.) -/
theorem update_multiple_deadlocks (c : Config) (key : String) (value : Json)
    (t : List (String × Json)) :
    Config.update_multiple ((key, value) :: t) c = .deadlock := rfl

/-! ## Claim C2 -/

/-- C2: evaluating `create_new_config_from_existing` at a failing input (the
file `missing.json` does not exist, so the load fails): the factory still
returns a present (non-null) handle to the freshly created, unchanged store
and only a diagnostic is printed — the `return nullptr` branch is dead code
because `Config::load_from_file` catches every failure internally. -/
theorem create_from_existing_missing_file :
    create_new_config_from_existing "custom" "missing.json" [] [] =
      (some Config.mk0, [("custom", Config.mk0)],
        ["Failed to open config file for reading: missing.json"])
    ∧ ¬ ∃ reg d, create_new_config_from_existing "custom" "missing.json" [] [] =
        (none, reg, d) := by
  refine ⟨rfl, ?_⟩
  rintro ⟨reg, d, h⟩
  have h' := congrArg (fun r => r.1) h
  exact nomatch h'

/-! ## Claim C9 -/

/-- C9 counterexample: `load_from_file` copies document keys into the store
unchecked, so loading the JSON document `{"": 1}` from `a.json` puts the
empty key into the store — the non-empty-key invariant is not preserved by
every mutating operation. -/
theorem empty_key_from_load_counterexample :
    alLookup ""
      (Config.load_from_file1 "a.json"
        [("a.json", FileData.jsonDoc (.obj (.cons "" (.int 1) .nil)))] Config.mk0).1.config_map
      = some (.int 1) := rfl

/-- C9 (amended): `set` rejects the empty key, and a successful `set`
preserves the all-keys-non-empty invariant; `update_multiple` goes through
`set` (on a non-empty input it deadlocks before applying anything, and on the
empty input it changes nothing), so it cannot introduce an empty key either.
The load paths and the environment import, however, copy file- or
environment-supplied keys into the map unchecked, so they can introduce an
empty key (counterexample above). -/
theorem empty_key_invariant_amended (c : Config) (key : String) (value : Json) :
    Config.set false "" value c = .thrown (.invalidArgument "Key cannot be empty") c
    ∧ (∀ c' ns, Config.set false key value c = .ok c' ns →
        (∀ k ∈ alKeys c.config_map, k ≠ "") →
        ∀ k ∈ alKeys c'.config_map, k ≠ "")
    ∧ (∀ p t, Config.update_multiple (p :: t) c = .deadlock)
    ∧ Config.update_multiple [] c = .ok c [] [] := by
  refine ⟨by simp [Config.set], ?_, ?_, rfl⟩
  · intro c' ns hset hinv k hk
    by_cases hkey : key = ""
    · subst hkey
      simp [Config.set] at hset
    · have hmap : c'.config_map = alInsert key value c.config_map := by
        simp only [Config.set, if_neg (by simp : ¬ (false = true))] at hset
        rw [if_pos hkey] at hset
        by_cases hex : key = "example" ∧ value.isString = false
        · rw [if_pos hex] at hset
          exact nomatch hset
        · rw [if_neg hex] at hset
          cases hset
          rfl
      rw [hmap] at hk
      rcases alKeys_insert_mem k key value c.config_map hk with h | h
      · exact h ▸ hkey
      · exact hinv k h
  · rintro ⟨k, v⟩ t
    rfl

/-- Witness for `empty_key_invariant_amended`: on the store `{"a": 1}`,
setting `"b"` succeeds and every key of the result is non-empty. -/
theorem empty_key_invariant_amended_witness :
    Config.set false "" (Json.int 3) Config.mk0 =
      .thrown (.invalidArgument "Key cannot be empty") Config.mk0
    ∧ (∀ k ∈ alKeys ([("a", Json.int 1), ("b", Json.int 2)] : Cmap), k ≠ "") :=
  ⟨(empty_key_invariant_amended Config.mk0 "" (Json.int 3)).1,
   (empty_key_invariant_amended { Config.mk0 with config_map := [("a", Json.int 1)] }
      "b" (Json.int 2)).2.1
     { Config.mk0 with config_map := [("a", Json.int 1), ("b", Json.int 2)] } [] rfl
     (by decide)⟩

/-! ## Claim C5 -/

/-- A `set(key, value)` call that succeeds: the key is non-empty and the
reserved-key rule for `"example"` is satisfied. -/
def setAccepted (p : String × Json) : Prop :=
  p.1 ≠ "" ∧ (p.1 = "example" → p.2.isString = true)

instance (p : String × Json) : Decidable (setAccepted p) := by
  unfold setAccepted; infer_instance

/-- A sequence of top-level `set` calls (each taking the lock itself),
collecting the listener notifications fired along the way; `none` if any call
fails or deadlocks. -/
def runSets : List (String × Json) → Config → Option (Config × List Notif)
  | [], c => some (c, [])
  | (k, v) :: t, c =>
    match Config.set false k v c with
    | .ok c' ns => (runSets t c').map (fun r => (r.1, ns ++ r.2))
    | .thrown _ _ => none
    | .deadlock => none

theorem change_listeners_foldl_add (ls : List Nat) (c : Config) :
    (ls.foldl (fun a l => Config.add_change_listener l a) c).change_listeners_ =
      c.change_listeners_ ++ ls := by
  induction ls generalizing c with
  | nil => simp
  | cons l t ih =>
    rw [List.foldl_cons, ih]
    simp [Config.add_change_listener]

theorem set_accepted_eq (k : String) (v : Json) (c : Config) (h : setAccepted (k, v)) :
    Config.set false k v c =
      .ok { c with config_map := alInsert k v c.config_map }
        (c.change_listeners_.map (fun l => (l, k, v))) := by
  have hex : ¬ (k = "example" ∧ v.isString = false) := by
    rintro ⟨he, hf⟩
    rw [h.2 he] at hf
    exact absurd hf (by simp)
  simp [Config.set, h.1, hex]

theorem runSets_spec (sets : List (String × Json)) (c : Config)
    (hok : ∀ p ∈ sets, setAccepted p) :
    ∃ c', runSets sets c =
        some (c', (sets.map (fun p => c.change_listeners_.map (fun l => (l, p.1, p.2)))).flatten)
      ∧ c'.change_listeners_ = c.change_listeners_ := by
  induction sets generalizing c with
  | nil => exact ⟨c, rfl, rfl⟩
  | cons p t ih =>
    obtain ⟨k, v⟩ := p
    have hset := set_accepted_eq k v c (hok (k, v) (by simp))
    obtain ⟨c', hrun, hl⟩ :=
      ih { c with config_map := alInsert k v c.config_map }
        (fun q hq => hok q (List.mem_cons_of_mem _ hq))
    refine ⟨c', ?_, hl⟩
    simp only [runSets, hset, hrun, Option.map_some]
    simp [List.flatten]

/-- C5: for every sequence of successful `set` calls on a store whose
listeners were registered (in order) via `add_change_listener`, the recorded
listener invocations are exactly: for each `set` in sequence order, one
invocation per registered listener, in registration order, carrying that
call's `(key, value)` — i.e. every listener fires exactly once per `set`. -/
theorem listener_fanout (ls : List Nat) (sets : List (String × Json)) (c₀ : Config)
    (h₀ : c₀.change_listeners_ = [])
    (hok : ∀ p ∈ sets, setAccepted p) :
    ∃ c', runSets sets (ls.foldl (fun a l => Config.add_change_listener l a) c₀) =
        some (c', (sets.map (fun p => ls.map (fun l => (l, p.1, p.2)))).flatten)
      ∧ c'.change_listeners_ = ls := by
  have hl := change_listeners_foldl_add ls c₀
  rw [h₀, List.nil_append] at hl
  obtain ⟨c', h1, h2⟩ := runSets_spec sets _ hok
  rw [hl] at h1 h2
  exact ⟨c', h1, h2⟩

/-- Witness for `listener_fanout`: two listeners, two sets. -/
theorem listener_fanout_witness :
    Config.mk0.change_listeners_ = []
    ∧ (∀ p ∈ ([("a", Json.int 1), ("example", Json.str "s")] : List (String × Json)),
        setAccepted p)
    ∧ ∃ c', runSets [("a", Json.int 1), ("example", Json.str "s")]
          (([0, 1] : List Nat).foldl (fun a l => Config.add_change_listener l a) Config.mk0) =
        some (c', (([("a", Json.int 1), ("example", Json.str "s")] :
            List (String × Json)).map
          (fun p => ([0, 1] : List Nat).map (fun l => (l, p.1, p.2)))).flatten)
      ∧ c'.change_listeners_ = [0, 1] :=
  ⟨rfl, by decide, listener_fanout [0, 1] _ Config.mk0 rfl (by decide)⟩

/-! ## Claim C6 -/

theorem splitAtEq_append (a b : List Char) (h : '=' ∉ a) :
    splitAtEq (a ++ '=' :: b) = some (a, b) := by
  induction a with
  | nil => simp [splitAtEq]
  | cons c t ih =>
    have hc : ¬ (c = '=') := fun hh => h (by simp [hh])
    have ih' := ih (fun hm => h (List.mem_cons_of_mem _ hm))
    show (if c = '=' then some (([] : List Char), t ++ '=' :: b)
          else (splitAtEq (t ++ '=' :: b)).map (fun p => (c :: p.1, p.2))) = some (c :: t, b)
    rw [if_neg hc, ih']
    rfl

theorem splitEnvEntry_mk (n v : String) (h : '=' ∉ n.toList) :
    splitEnvEntry (n ++ "=" ++ v) = some (n, v) := by
  have hdata : (n ++ "=" ++ v).toList = n.toList ++ '=' :: v.toList := by
    show (n ++ "=" ++ v).data = n.data ++ '=' :: v.data
    rw [String.data_append, String.data_append]
    simp
  unfold splitEnvEntry
  rw [hdata, splitAtEq_append _ _ h]
  rfl

theorem envFold_lookup_notin (t : List String) (n : String) (m : Cmap)
    (h : n ∉ envNames t) :
    alLookup n (t.foldl envImportStep m) = alLookup n m := by
  induction t generalizing m with
  | nil => rfl
  | cons e t ih =>
    rw [List.foldl_cons]
    cases hsp : splitEnvEntry e with
    | none =>
      have hcons : envNames (e :: t) = envNames t := by
        simp [envNames, List.filterMap_cons, hsp]
      rw [hcons] at h
      have hstep : envImportStep m e = m := by simp [envImportStep, hsp]
      rw [hstep]
      exact ih m h
    | some p =>
      obtain ⟨nn, vv⟩ := p
      have hcons : envNames (e :: t) = nn :: envNames t := by
        simp [envNames, List.filterMap_cons, hsp]
      rw [hcons, List.mem_cons] at h
      push_neg at h
      have hstep : envImportStep m e = alInsert nn (Json.str vv) m := by
        simp [envImportStep, hsp]
      rw [hstep, ih _ h.2]
      exact alLookup_insert_ne n nn (Json.str vv) m (fun hh => h.1 hh.symm)

theorem envFold_lookup_mem (env : List String) (m : Cmap) (n v : String)
    (hnd : (envNames env).Nodup)
    (hmem : ∃ e ∈ env, splitEnvEntry e = some (n, v)) :
    alLookup n (env.foldl envImportStep m) = some (Json.str v) := by
  induction env generalizing m with
  | nil =>
    rcases hmem with ⟨e, he, _⟩
    simp at he
  | cons e t ih =>
    rcases hmem with ⟨e', he', hsp'⟩
    rcases List.mem_cons.mp he' with rfl | hmem'
    · have hcons : envNames (e' :: t) = n :: envNames t := by
        simp [envNames, List.filterMap_cons, hsp']
      rw [hcons, List.nodup_cons] at hnd
      have hstep : envImportStep m e' = alInsert n (Json.str v) m := by
        simp [envImportStep, hsp']
      rw [List.foldl_cons, hstep, envFold_lookup_notin t n _ hnd.1]
      exact alLookup_insert_self n (Json.str v) m
    · rw [List.foldl_cons]
      cases hsp : splitEnvEntry e with
      | none =>
        have hcons : envNames (e :: t) = envNames t := by
          simp [envNames, List.filterMap_cons, hsp]
        rw [hcons] at hnd
        have hstep : envImportStep m e = m := by simp [envImportStep, hsp]
        rw [hstep]
        exact ih m hnd ⟨e', hmem', hsp'⟩
      | some p =>
        obtain ⟨nn, vv⟩ := p
        have hcons : envNames (e :: t) = nn :: envNames t := by
          simp [envNames, List.filterMap_cons, hsp]
        rw [hcons, List.nodup_cons] at hnd
        have hstep : envImportStep m e = alInsert nn (Json.str vv) m := by
          simp [envImportStep, hsp]
        rw [hstep]
        exact ih (alInsert nn (Json.str vv) m) hnd.2 ⟨e', hmem', hsp'⟩

/-- C6: after `load_from_env()`, every well-formed environment entry
`NAME=VALUE` (distinct names, `'='`-free name) is present as the string-valued
key `NAME`, whatever the store previously held under that name — the import
pass assigns `config_map[NAME] = VALUE` last, so the environment takes
precedence over any pre-existing typed value. -/
theorem load_from_env_precedence (env : List String) (c : Config) (n v : String)
    (hn : '=' ∉ n.toList)
    (hnd : (envNames env).Nodup)
    (hmem : (n ++ "=" ++ v) ∈ env) :
    Config.get n (Config.load_from_env env c) = .ok (Json.str v)
    ∧ alLookup n (Config.load_from_env env c).config_map = some (Json.str v) := by
  have hl : alLookup n (Config.load_from_env env c).config_map = some (Json.str v) := by
    have hcm : (Config.load_from_env env c).config_map =
        env.foldl envImportStep (envOverrideMap env c.config_map) := rfl
    rw [hcm]
    exact envFold_lookup_mem env _ n v hnd ⟨_, hmem, splitEnvEntry_mk n v hn⟩
  exact ⟨by simp [Config.get, hl], hl⟩

/-- Witness for `load_from_env_precedence`: store key `"x" = "old"`,
environment `x=new`; afterwards `get("x")` is the string `"new"`. -/
theorem load_from_env_precedence_witness :
    '=' ∉ ("x" : String).toList
    ∧ (envNames ["x=new"]).Nodup
    ∧ ("x" ++ "=" ++ "new") ∈ ["x=new"]
    ∧ Config.get "x" (Config.load_from_env ["x=new"]
        { Config.mk0 with config_map := [("x", Json.str "old")] }) = .ok (Json.str "new") :=
  ⟨by decide, by decide, by decide,
   (load_from_env_precedence ["x=new"]
      { Config.mk0 with config_map := [("x", Json.str "old")] } "x" "new"
      (by decide) (by decide) (by decide)).1⟩

/-! ## Claim C4 -/

/-- The three failure modes of the claim: the path cannot be opened, the
extension is unsupported, or the content does not parse in the dispatched
format. -/
def loadAttemptFails (fs : FS) (path : String) : Prop :=
  alLookup path fs = none
  ∨ (extOf path ≠ "json" ∧ extOf path ≠ "yaml" ∧ extOf path ≠ "yml")
  ∨ (extOf path = "json" ∧ ∃ fd, alLookup path fs = some fd ∧ parseJsonFile fd = none)
  ∨ ((extOf path = "yaml" ∨ extOf path = "yml")
      ∧ ∃ fd, alLookup path fs = some fd ∧ parseYamlFile fd = none)

/-- C4: every failing load — unopenable file, unsupported extension, or
malformed content — leaves the whole store untouched and reports at least
one diagnostic, for the versioned load, the plain load and the partial load
alike.  The functions return normally by construction (their bodies are
wrapped in `try`/`catch` at the operation boundary), so the caller is never
aborted. -/
theorem load_failure_degrades_to_noop (fs : FS) (path version : String)
    (keys : List String) (c : Config) (h : loadAttemptFails fs path) :
    ((Config.load_from_file2 path version fs c).1 = c
      ∧ (Config.load_from_file2 path version fs c).2 ≠ [])
    ∧ ((Config.load_from_file1 path fs c).1 = c
      ∧ (Config.load_from_file1 path fs c).2 ≠ [])
    ∧ ((Config.load_partial_from_file path keys fs c).1 = c
      ∧ (Config.load_partial_from_file path keys fs c).2 ≠ []) := by
  have h2 : ∀ ver, (Config.load_from_file2 path ver fs c).1 = c
      ∧ (Config.load_from_file2 path ver fs c).2 ≠ [] := by
    intro ver
    rcases h with hopen | ⟨h1, h2, h3⟩ | ⟨hext, fd, hfd, hparse⟩ | ⟨hor, fd, hfd, hparse⟩
    · simp [Config.load_from_file2, hopen]
    · cases hfd : alLookup path fs with
      | none => simp [Config.load_from_file2, hfd]
      | some fd => simp [Config.load_from_file2, hfd, h1, h2, h3]
    · simp [Config.load_from_file2, hfd, hext, hparse]
    · have hne : extOf path ≠ "json" := by
        rcases hor with h' | h' <;> rw [h'] <;> decide
      simp [Config.load_from_file2, hfd, hne, hor, hparse]
  have h3 : (Config.load_partial_from_file path keys fs c).1 = c
      ∧ (Config.load_partial_from_file path keys fs c).2 ≠ [] := by
    rcases h with hopen | ⟨h1, h2, h3⟩ | ⟨hext, fd, hfd, hparse⟩ | ⟨hor, fd, hfd, hparse⟩
    · simp [Config.load_partial_from_file, hopen]
    · cases hfd : alLookup path fs with
      | none => simp [Config.load_partial_from_file, hfd]
      | some fd => simp [Config.load_partial_from_file, hfd, h1, h2, h3]
    · simp [Config.load_partial_from_file, hfd, hext, hparse]
    · have hne : extOf path ≠ "json" := by
        rcases hor with h' | h' <;> rw [h'] <;> decide
      simp [Config.load_partial_from_file, hfd, hne, hor, hparse]
  exact ⟨h2 version, h2 "1.0.0", h3⟩

/-- Witness for `load_failure_degrades_to_noop`: loading the absent path
`absent.json` from an empty file system. -/
theorem load_failure_degrades_to_noop_witness :
    loadAttemptFails [] "absent.json"
    ∧ (((Config.load_from_file2 "absent.json" "1.0.0" [] Config.mk0).1 = Config.mk0
        ∧ (Config.load_from_file2 "absent.json" "1.0.0" [] Config.mk0).2 ≠ [])
      ∧ ((Config.load_from_file1 "absent.json" [] Config.mk0).1 = Config.mk0
        ∧ (Config.load_from_file1 "absent.json" [] Config.mk0).2 ≠ [])
      ∧ ((Config.load_partial_from_file "absent.json" ["k"] [] Config.mk0).1 = Config.mk0
        ∧ (Config.load_partial_from_file "absent.json" ["k"] [] Config.mk0).2 ≠ [])) :=
  ⟨Or.inl rfl,
   load_failure_degrades_to_noop [] "absent.json" "1.0.0" ["k"] Config.mk0 (Or.inl rfl)⟩

/-! ## Claim C8 -/

/-- One validator entry passes: the key exists and its value satisfies the
predicate. -/
def validatorPasses (m : Cmap) (p : String × (Json → Bool)) : Prop :=
  ∃ v, alLookup p.1 m = some v ∧ p.2 v = true

theorem validateLoop_ok_iff (m : Cmap) (vs : List (String × (Json → Bool))) :
    validateLoop m vs = .ok () ↔ ∀ p ∈ vs, validatorPasses m p := by
  induction vs with
  | nil => simp [validateLoop]
  | cons p t ih =>
    obtain ⟨key, pred⟩ := p
    cases hl : alLookup key m with
    | none =>
      constructor
      · intro h
        simp only [validateLoop, hl] at h
        exact nomatch h
      · intro hall
        rcases hall (key, pred) (List.mem_cons_self _ _) with ⟨v, hv, _⟩
        rw [hl] at hv
        exact nomatch hv
    | some v =>
      by_cases hp : pred v = true
      · have hred : validateLoop m ((key, pred) :: t) = validateLoop m t := by
          simp [validateLoop, hl, hp]
        rw [hred, ih]
        constructor
        · intro hall q hq
          rcases List.mem_cons.mp hq with rfl | hq'
          · exact ⟨v, hl, hp⟩
          · exact hall q hq'
        · intro hall q hq
          exact hall q (List.mem_cons_of_mem _ hq)
      · constructor
        · intro h
          simp only [validateLoop, hl] at h
          rw [if_neg hp] at h
          exact nomatch h
        · intro hall
          rcases hall (key, pred) (List.mem_cons_self _ _) with ⟨v', hv', hp'⟩
          rw [hl] at hv'
          cases hv'
          exact absurd hp' hp

theorem validateLoop_append_pass (m : Cmap) (pre rest : List (String × (Json → Bool)))
    (h : ∀ p ∈ pre, validatorPasses m p) :
    validateLoop m (pre ++ rest) = validateLoop m rest := by
  induction pre with
  | nil => rfl
  | cons p t ih =>
    obtain ⟨key, pred⟩ := p
    rcases h (key, pred) (List.mem_cons_self _ _) with ⟨v, hv, hp⟩
    have hv' : alLookup key m = some v := hv
    have hp' : pred v = true := hp
    have hred : validateLoop m (((key, pred) :: t) ++ rest) = validateLoop m (t ++ rest) := by
      simp [validateLoop, hv', hp']
    rw [hred, ih (fun q hq => h q (List.mem_cons_of_mem _ hq))]

/-- C8 counterexample: with the single validator `("k", λ _ => true)` on an
empty store the key is missing, yet `validate` returns normally — the
violation is only printed to the diagnostic channel, never surfaced to the
caller as a failure. -/
theorem validate_not_surfaced_counterexample :
    Config.validate [("k", fun _ => true)] Config.mk0 =
      .ok () ["Error in validate: Validation failed: key not found: k"]
    ∧ ¬ ∃ e d, Config.validate [("k", fun _ => true)] Config.mk0 = OpOut.thrown e d := by
  refine ⟨rfl, ?_⟩
  rintro ⟨e, d, h⟩
  exact nomatch h

/-- C8 (amended): `validate` succeeds silently (no diagnostic) exactly when
every listed key exists and satisfies its predicate; otherwise the first
violation in iteration order — key missing, or predicate false together with
the offending value — is reported, but only on the diagnostic channel: the
operation's own `catch` swallows the throw and the caller always gets a
normal return. -/
theorem validate_amended (validators : List (String × (Json → Bool))) (c : Config) :
    (Config.validate validators c = .ok () [] ↔
      ∀ p ∈ validators, validatorPasses c.config_map p)
    ∧ (∀ pre key pred post, validators = pre ++ (key, pred) :: post →
        (∀ p ∈ pre, validatorPasses c.config_map p) →
        alLookup key c.config_map = none →
        Config.validate validators c =
          .ok () ["Error in validate: " ++ ("Validation failed: key not found: " ++ key)])
    ∧ (∀ pre key pred post v, validators = pre ++ (key, pred) :: post →
        (∀ p ∈ pre, validatorPasses c.config_map p) →
        alLookup key c.config_map = some v → pred v = false →
        Config.validate validators c =
          .ok () ["Error in validate: " ++
            ("Validation failed for key: " ++ key ++ " with value: " ++ Json.dump v)])
    ∧ (∀ e d, Config.validate validators c ≠ OpOut.thrown e d) := by
  refine ⟨?_, ?_, ?_, ?_⟩
  · cases hv : validateLoop c.config_map validators with
    | ok u =>
      obtain ⟨⟩ := u
      constructor
      · intro _
        exact (validateLoop_ok_iff _ _).mp hv
      · intro _
        simp [Config.validate, hv]
    | error e =>
      constructor
      · intro h
        simp only [Config.validate, hv] at h
        exact nomatch h
      · intro hall
        have h' := (validateLoop_ok_iff c.config_map validators).mpr hall
        rw [hv] at h'
        exact nomatch h'
  · intro pre key pred post heq hpass hnone
    have hred : validateLoop c.config_map validators =
        .error (.invalidArgument ("Validation failed: key not found: " ++ key)) := by
      rw [heq, validateLoop_append_pass _ _ _ hpass]
      simp [validateLoop, hnone]
    simp [Config.validate, hred, CErr.what]
  · intro pre key pred post v heq hpass hsome hpred
    have hred : validateLoop c.config_map validators =
        .error (.invalidArgument
          ("Validation failed for key: " ++ key ++ " with value: " ++ Json.dump v)) := by
      rw [heq, validateLoop_append_pass _ _ _ hpass]
      simp [validateLoop, hsome, hpred]
    simp [Config.validate, hred, CErr.what]
  · intro e d h
    cases hv : validateLoop c.config_map validators with
    | ok u =>
      obtain ⟨⟩ := u
      simp only [Config.validate, hv] at h
      exact nomatch h
    | error e' =>
      simp only [Config.validate, hv] at h
      exact nomatch h

/-- Witness for `validate_amended`: the store `{"k": 7}` with the validator
requiring `"k"` to be a string — validate returns normally carrying the
predicate-failure diagnostic naming the key and the offending value. -/
theorem validate_amended_witness :
    Config.validate [("k", Json.isString)]
        { Config.mk0 with config_map := [("k", Json.int 7)] } =
      .ok () ["Error in validate: Validation failed for key: k with value: 7"] :=
  (validate_amended [("k", Json.isString)]
      { Config.mk0 with config_map := [("k", Json.int 7)] }).2.2.1
    [] "k" Json.isString [] (Json.int 7) rfl
    (fun p hp => absurd hp (List.not_mem_nil p)) rfl rfl

/-! ## Claim C1 -/

/-- A whole map's worth of YAML normalisation: what one save/load cycle
through the YAML pipeline does to every stored value. -/
def yamlNormalizeMap (m : Cmap) : Cmap :=
  m.map (fun kv => (kv.1, yamlNormalize kv.2))

/-- Extensional equality of maps, the notion behind
`unordered_map::operator==` / `get_all() == M`. -/
def cmEquiv (m₁ m₂ : Cmap) : Prop := ∀ k, alLookup k m₁ = alLookup k m₂

theorem alKeys_yamlNormalizeMap (m : Cmap) :
    alKeys (yamlNormalizeMap m) = alKeys m := by
  induction m with
  | nil => rfl
  | cons p t ih =>
    obtain ⟨k, v⟩ := p
    simp only [yamlNormalizeMap, List.map_cons, alKeys_cons] at *
    rw [ih]

/-- The store used by the C1 counterexample and witness: one integer key. -/
def rtStore : Config := { Config.mk0 with config_map := [("a", Json.int 1)] }

/-- C1 counterexample: already for JSON the round-trip is not the identity —
`save_to_file` injects a `"version"` member and `load_from_file` merges every
document key back, so after `save; clear; load` on `cfg.json` the store of
`{"a": 1}` contains the extra key `"version"`, and `get_all()` differs
from M. -/
theorem round_trip_counterexample :
    ¬ cmEquiv
      (Config.get_all (Config.load_from_file1 "cfg.json"
        (Config.save_to_file1 "cfg.json" [] rtStore).1 (Config.clear rtStore)).1)
      rtStore.config_map :=
  fun h => Option.noConfusion (h "version")

/-- C1 (amended): with `"version"` not among the stored keys, the sequence
`save_to_file(path); clear(); load_from_file(path)` yields, on a `.json`
path, exactly the original map plus the injected `"version" = "1.0.0"`
entry; on a `.yaml`/`.yml` path the same holds with every value additionally
sent through the YAML scalar coercion (`yamlNormalize`), which is the
identity except on values containing scalars that re-parse as
booleans/numbers. -/
theorem round_trip_amended (c : Config) (fs : FS) (pj py : String)
    (hj : extOf pj = "json") (hy : extOf py = "yaml" ∨ extOf py = "yml")
    (hnd : (alKeys c.config_map).Nodup)
    (hv : alLookup "version" c.config_map = none) :
    cmEquiv
      (Config.get_all (Config.load_from_file1 pj (Config.save_to_file1 pj fs c).1
        (Config.clear c)).1)
      (alInsert "version" (Json.str "1.0.0") c.config_map)
    ∧ cmEquiv
      (Config.get_all (Config.load_from_file1 py (Config.save_to_file1 py fs c).1
        (Config.clear c)).1)
      (alInsert "version" (Json.str "1.0.0") (yamlNormalizeMap c.config_map)) := by
  have hvm : "version" ∉ alKeys c.config_map := (alLookup_eq_none_iff _ _).mp hv
  have hL : alInsert "version" (Json.str "1.0.0") c.config_map
      = c.config_map ++ [("version", Json.str "1.0.0")] :=
    alInsert_of_lookup_none _ _ _ hv
  constructor
  · -- JSON path
    have hfs' : alLookup pj (Config.save_to_file1 pj fs c).1 =
        some (.jsonDoc (.obj (JsonObj.ofList
          (alInsert "version" (Json.str "1.0.0") c.config_map)))) := by
      simp [Config.save_to_file1, Config.save_to_file2, hj, alLookup_insert_self]
    have hres : (Config.load_from_file1 pj (Config.save_to_file1 pj fs c).1
        (Config.clear c)).1.config_map =
        (alInsert "version" (Json.str "1.0.0") c.config_map).foldl
          (fun m kv => alInsert kv.1 kv.2 m) [] := by
      simp [Config.load_from_file1, Config.load_from_file2, hfs', hj, parseJsonFile,
        jsonIterEntries, Config.clear]
    have hknd : ((c.config_map ++ [("version", Json.str "1.0.0")]).map Prod.fst).Nodup := by
      have hk : (c.config_map ++ [("version", Json.str "1.0.0")]).map Prod.fst
          = alKeys c.config_map ++ ["version"] := by simp [alKeys]
      rw [hk]
      exact hnd.append (by simp)
        (fun a ha hmem => hvm ((List.mem_singleton.mp hmem) ▸ ha))
    have hfold : (c.config_map ++ [("version", Json.str "1.0.0")]).foldl
        (fun m kv => alInsert kv.1 kv.2 m) ([] : Cmap)
        = c.config_map ++ [("version", Json.str "1.0.0")] := by
      have := foldl_insert_fresh (c.config_map ++ [("version", Json.str "1.0.0")])
        ([] : Cmap) (fun p _ => rfl) hknd
      simpa using this
    intro k
    show alLookup k ((Config.load_from_file1 pj (Config.save_to_file1 pj fs c).1
        (Config.clear c)).1.config_map) = _
    rw [hres, hL, hfold, ← hL]
  · -- YAML path
    have hne : extOf py ≠ "json" := by
      rcases hy with h' | h' <;> rw [h'] <;> decide
    have hfs' : alLookup py (Config.save_to_file1 py fs c).1 =
        some (.yamlDoc (.map (YamlMap.ofList
          (("version", Yaml.scalar "1.0.0") ::
            c.config_map.map (fun kv => (kv.1, json_to_yaml kv.2)))))) := by
      simp [Config.save_to_file1, Config.save_to_file2, hne, hy, alLookup_insert_self]
    have hres : (Config.load_from_file1 py (Config.save_to_file1 py fs c).1
        (Config.clear c)).1.config_map =
        (("version", Yaml.scalar "1.0.0") ::
          c.config_map.map (fun kv => (kv.1, json_to_yaml kv.2))).foldl
            (fun m kv => alInsert kv.1 (yaml_to_json kv.2) m) [] := by
      simp [Config.load_from_file1, Config.load_from_file2, hfs', hne, hy, parseYamlFile,
        yamlIterEntries, Config.clear]
    have hconv : (("version", Yaml.scalar "1.0.0") ::
        c.config_map.map (fun kv => (kv.1, json_to_yaml kv.2))).map
          (fun kv => (kv.1, yaml_to_json kv.2))
        = ("version", Json.str "1.0.0") :: yamlNormalizeMap c.config_map := by
      simp only [List.map_cons, List.map_map]
      rfl
    have hkeys : alKeys (yamlNormalizeMap c.config_map) = alKeys c.config_map :=
      alKeys_yamlNormalizeMap c.config_map
    have hvm' : alLookup "version" (yamlNormalizeMap c.config_map) = none := by
      rw [alLookup_eq_none_iff, hkeys]
      exact hvm
    have hfold : (("version", Json.str "1.0.0") :: yamlNormalizeMap c.config_map).foldl
        (fun m kv => alInsert kv.1 kv.2 m) ([] : Cmap)
        = [("version", Json.str "1.0.0")] ++ yamlNormalizeMap c.config_map := by
      rw [List.foldl_cons]
      have hstep : alInsert "version" (Json.str "1.0.0") ([] : Cmap)
          = [("version", Json.str "1.0.0")] := rfl
      rw [hstep]
      apply foldl_insert_fresh
      · intro p hp
        have hpk : p.1 ∈ alKeys c.config_map := by
          rw [← hkeys]
          exact List.mem_map.mpr ⟨p, hp, rfl⟩
        have hne' : ¬ ("version" = p.1) := fun hh => hvm (hh ▸ hpk)
        simp [hne']
      · rw [show (yamlNormalizeMap c.config_map).map Prod.fst
            = alKeys (yamlNormalizeMap c.config_map) from rfl, hkeys]
        exact hnd
    intro k
    show alLookup k ((Config.load_from_file1 py (Config.save_to_file1 py fs c).1
        (Config.clear c)).1.config_map) = _
    rw [hres, foldl_insert_conv, hconv, hfold,
      alInsert_of_lookup_none _ _ _ hvm']
    exact alLookup_cons_eq_append "version" (Json.str "1.0.0")
      (yamlNormalizeMap c.config_map) hvm' k

/-- Witness for `round_trip_amended` on the store `{"a": 1}` with the paths
`cfg.json` and `cfg.yaml`. -/
theorem round_trip_amended_witness :
    extOf "cfg.json" = "json"
    ∧ (extOf "cfg.yaml" = "yaml" ∨ extOf "cfg.yaml" = "yml")
    ∧ (alKeys rtStore.config_map).Nodup
    ∧ alLookup "version" rtStore.config_map = none
    ∧ (cmEquiv
        (Config.get_all (Config.load_from_file1 "cfg.json"
          (Config.save_to_file1 "cfg.json" [] rtStore).1 (Config.clear rtStore)).1)
        (alInsert "version" (Json.str "1.0.0") rtStore.config_map)
      ∧ cmEquiv
        (Config.get_all (Config.load_from_file1 "cfg.yaml"
          (Config.save_to_file1 "cfg.yaml" [] rtStore).1 (Config.clear rtStore)).1)
        (alInsert "version" (Json.str "1.0.0") (yamlNormalizeMap rtStore.config_map))) :=
  ⟨rfl, Or.inl rfl, by decide, rfl,
   round_trip_amended rtStore [] "cfg.json" "cfg.yaml" rfl (Or.inl rfl) (by decide) rfl⟩

/-! ## Claim C7 -/

/-- Store used by the C7 counterexample: one key holding the *string*
`"true"`. -/
def psStore : Config := { Config.mk0 with config_map := [("s", Json.str "true")] }

/-- C7 counterexample: the claim does not restrict the path's format, but on
a `.yaml` path the partial round-trip is not value-faithful — the string
`"true"` is emitted as the bare scalar `true` and the load-side coercion
(`as<bool>` first) turns it into the boolean `true`, so `get(k)` does not
equal the original value. -/
theorem partial_round_trip_yaml_counterexample :
    Config.get "s" (Config.load_partial_from_file "p.yaml" ["s"]
      (Config.save_partial_to_file "p.yaml" ["s"] [] psStore).1 (Config.clear psStore)).1
      = .ok (Json.bool true)
    ∧ Config.get "s" (Config.load_partial_from_file "p.yaml" ["s"]
      (Config.save_partial_to_file "p.yaml" ["s"] [] psStore).1 (Config.clear psStore)).1
      ≠ .ok (Json.str "true") := by
  have h0 : Config.get "s" (Config.load_partial_from_file "p.yaml" ["s"]
      (Config.save_partial_to_file "p.yaml" ["s"] [] psStore).1 (Config.clear psStore)).1
      = .ok (Json.bool true) := rfl
  refine ⟨h0, ?_⟩
  intro h
  rw [h0] at h
  exact Json.noConfusion (Except.ok.inj h)

/-- C7 (amended): for a stored key `k`, the sequence
`save_partial_to_file(path, {k}); clear(); load_partial_from_file(path, {k})`
restores `get(k)` to the original value on a `.json` path exactly, and on a
`.yaml`/`.yml` path to the original value passed through the YAML scalar
coercion (`yamlNormalize`, the identity unless a scalar re-parses as a
boolean/number); in both formats every key other than `k` is absent
afterwards, and the partial file holds exactly the one requested key and no
`version` member. -/
theorem partial_fidelity_amended (c : Config) (fs : FS) (pj py k : String) (v : Json)
    (hj : extOf pj = "json") (hy : extOf py = "yaml" ∨ extOf py = "yml")
    (hk : alLookup k c.config_map = some v) :
    Config.get k (Config.load_partial_from_file pj [k]
      (Config.save_partial_to_file pj [k] fs c).1 (Config.clear c)).1 = .ok v
    ∧ (∀ k', k' ≠ k →
        alLookup k' (Config.load_partial_from_file pj [k]
          (Config.save_partial_to_file pj [k] fs c).1 (Config.clear c)).1.config_map = none)
    ∧ alLookup pj (Config.save_partial_to_file pj [k] fs c).1
        = some (.jsonDoc (.obj (JsonObj.ofList [(k, v)])))
    ∧ Config.get k (Config.load_partial_from_file py [k]
        (Config.save_partial_to_file py [k] fs c).1 (Config.clear c)).1
        = .ok (yamlNormalize v)
    ∧ (∀ k', k' ≠ k →
        alLookup k' (Config.load_partial_from_file py [k]
          (Config.save_partial_to_file py [k] fs c).1 (Config.clear c)).1.config_map = none)
    ∧ alLookup py (Config.save_partial_to_file py [k] fs c).1
        = some (.yamlDoc (.map (YamlMap.ofList [(k, json_to_yaml v)]))) := by
  have hne : extOf py ≠ "json" := by
    rcases hy with h' | h' <;> rw [h'] <;> decide
  have hdocj : alLookup pj (Config.save_partial_to_file pj [k] fs c).1
      = some (.jsonDoc (.obj (JsonObj.ofList [(k, v)]))) := by
    simp [Config.save_partial_to_file, hj, hk, alInsert, alLookup_insert_self]
  have hdocy : alLookup py (Config.save_partial_to_file py [k] fs c).1
      = some (.yamlDoc (.map (YamlMap.ofList [(k, json_to_yaml v)]))) := by
    simp [Config.save_partial_to_file, hne, hy, hk, alLookup_insert_self]
  have hmapj : (Config.load_partial_from_file pj [k]
      (Config.save_partial_to_file pj [k] fs c).1 (Config.clear c)).1.config_map
      = [(k, v)] := by
    simp [Config.load_partial_from_file, hdocj, hj, parseJsonFile, Json.getKey,
      Config.clear, alInsert]
  have hmapy : (Config.load_partial_from_file py [k]
      (Config.save_partial_to_file py [k] fs c).1 (Config.clear c)).1.config_map
      = [(k, yamlNormalize v)] := by
    simp [Config.load_partial_from_file, hdocy, hne, hy, parseYamlFile, Yaml.getKey,
      Config.clear, alInsert, yamlNormalize]
  refine ⟨?_, ?_, hdocj, ?_, ?_, hdocy⟩
  · simp [Config.get, hmapj]
  · intro k' hk'
    have hne' : ¬ (k = k') := fun hh => hk' hh.symm
    simp [hmapj, hne']
  · simp [Config.get, hmapy]
  · intro k' hk'
    have hne' : ¬ (k = k') := fun hh => hk' hh.symm
    simp [hmapy, hne']

/-- Witness for `partial_fidelity_amended`: the store `{"kk": 7}` with paths
`p.json` and `p.yaml`. -/
theorem partial_fidelity_amended_witness :
    extOf "p.json" = "json"
    ∧ (extOf "p.yaml" = "yaml" ∨ extOf "p.yaml" = "yml")
    ∧ alLookup "kk" ([("kk", Json.int 7)] : Cmap) = some (Json.int 7)
    ∧ Config.get "kk" (Config.load_partial_from_file "p.json" ["kk"]
        (Config.save_partial_to_file "p.json" ["kk"] []
          { Config.mk0 with config_map := [("kk", Json.int 7)] }).1
        (Config.clear { Config.mk0 with config_map := [("kk", Json.int 7)] })).1
      = .ok (Json.int 7) :=
  ⟨rfl, Or.inl rfl, rfl,
   (partial_fidelity_amended { Config.mk0 with config_map := [("kk", Json.int 7)] }
      [] "p.json" "p.yaml" "kk" (Json.int 7) rfl (Or.inl rfl) rfl).1⟩
